import Mathlib

/-!
Verification of the JSON lexer (`src/lexer.rs`) and recursive-descent parser
(`src/parser.rs`) of the repository against its specification.

The lexer is embedded over `List Char` (Rust iterates over `char` code
points).  The parser is embedded over `List Token` with an explicit index
cursor, mirroring `Parser { tokens, index }`.  Loops are given explicit fuel;
fuel-sufficiency theorems discharge termination.

Modelling notes, faithful to the source:
* `'}'` is mapped to `Token.LeftBrace` exactly as `lexer.rs` line 77 does
  (the source's closing-brace dispatch emits `LeftBrace`).
* Rust `char::is_numeric` / `char::is_whitespace` are modelled by
  `Char.isDigit` / `Char.isWhitespace`; these agree on every input exercised
  here (ASCII digits and ASCII whitespace).
* The `f64` payload of `Token::Number` is modelled by the exact rational
  value of the decimal literal.  Rust stores the correctly rounded IEEE
  double of that value; two literals with equal rational value round to the
  same double, so equalities and the accept/reject behaviour transfer.
* `BTreeMap<String, Value>` is modelled by a strictly sorted association
  list with an ordered insert (`insertSorted`), matching the map's
  lexicographic iteration order and overwrite-on-duplicate semantics.
-/

namespace JsonParse

/-- `Token` from `lexer.rs`: the lexical units. -/
inductive Token where
  | String (s : String)
  | Number (n : ℚ)
  | Bool (b : Bool)
  | Null
  | WhiteSpace
  | LeftBrace
  | RightBrace
  | LeftBracket
  | RightBracket
  | Comma
  | Colon
deriving Repr, DecidableEq

/-- `LexerError` from `lexer.rs`. -/
structure LexerError where
  msg : String
deriving Repr, DecidableEq

/-- `LexerError::new`. -/
def LexerError.new (msg : String) : LexerError := ⟨msg⟩

/-- Character class scanned greedily by `parse_number_token`:
digits plus `+ - e E .`. -/
def isNumChar (c : Char) : Bool :=
  c.isDigit || c == '+' || c == '-' || c == 'e' || c == 'E' || c == '.'

/-- Start-of-number dispatch class in `next_token`: digits plus `+ - .`. -/
def isNumStart (c : Char) : Bool :=
  c.isDigit || c == '+' || c == '-' || c == '.'

/-- The greedy scan loop of `parse_number_token`: consume characters while
they are in the numeric class, returning the consumed run and the rest. -/
def scanNumber : List Char → List Char × List Char
  | [] => ([], [])
  | c :: cs =>
    if isNumChar c then
      let (a, r) := scanNumber cs
      (c :: a, r)
    else ([], c :: cs)

/-- Numeric value of a run of decimal digits. -/
def digitsToNat (ds : List Char) : Nat :=
  ds.foldl (fun acc c => 10 * acc + (c.toNat - 48)) 0

/-- Rust `str::parse::<f64>` on strings drawn from the numeric character
class, returning the exact rational value of the accepted literal: an
optional sign, a mantissa with at least one digit (`d+`, `d+.d*` or `.d+`),
and an optional exponent `e|E` with optional sign and at least one digit.
(`inf`/`nan` spellings are unreachable: their letters are outside the
scanned class.) -/
def parseF64 (s : String) : Option ℚ :=
  let (sgn, cs1) :=
    match s.data with
    | '+' :: r => ((1 : ℚ), r)
    | '-' :: r => ((-1 : ℚ), r)
    | cs => ((1 : ℚ), cs)
  let (ipart, cs2) := cs1.span Char.isDigit
  let (fpart, cs3) :=
    match cs2 with
    | '.' :: r => r.span Char.isDigit
    | _ => (([] : List Char), cs2)
  if ipart.isEmpty && fpart.isEmpty then none
  else
    let mant : ℚ := (digitsToNat ipart : ℚ) + (digitsToNat fpart : ℚ) / (10 : ℚ) ^ fpart.length
    match cs3 with
    | [] => some (sgn * mant)
    | e :: r =>
      if e = 'e' ∨ e = 'E' then
        let (esgn, r1) :=
          match r with
          | '+' :: t => ((1 : ℤ), t)
          | '-' :: t => ((-1 : ℤ), t)
          | t => ((1 : ℤ), t)
        let (edigits, r2) := r1.span Char.isDigit
        if edigits.isEmpty ∨ !r2.isEmpty then none
        else some (sgn * mant * (10 : ℚ) ^ (esgn * (digitsToNat edigits : ℤ)))
      else none

/-- Rust `char::is_ascii_hexdigit`. -/
def isAsciiHexDigit (c : Char) : Bool :=
  c.isDigit || ('a' ≤ c && c ≤ 'f') || ('A' ≤ c && c ≤ 'F')

/-- Value of one hexadecimal digit. -/
def hexDigitVal (c : Char) : Nat :=
  if c.isDigit then c.toNat - 48
  else if 'a' ≤ c then c.toNat - 87
  else c.toNat - 55

/-- `u16::from_str_radix(_, 16)` on a nonempty run of at most 4 hex digits
(so the value is below 2^16 and cannot overflow). -/
def hexVal (ds : List Char) : Nat :=
  ds.foldl (fun a c => 16 * a + hexDigitVal c) 0

/-- `String::from_utf16`: decode UTF-16 code units, combining a high
surrogate followed by a low surrogate into one scalar; any lone surrogate
is an error (`none`). -/
def decodeUtf16 : List Nat → Option (List Char)
  | [] => some []
  | u :: rest =>
    if u < 0xD800 ∨ 0xDFFF < u then
      match decodeUtf16 rest with
      | some cs => some (Char.ofNat u :: cs)
      | none => none
    else if u ≤ 0xDBFF then
      match rest with
      | l :: rest2 =>
        if 0xDC00 ≤ l ∧ l ≤ 0xDFFF then
          match decodeUtf16 rest2 with
          | some cs =>
            some (Char.ofNat (0x10000 + (u - 0xD800) * 0x400 + (l - 0xDC00)) :: cs)
          | none => none
        else none
      | [] => none
    else none

/-- `Lexer::push_utf16`: flush the UTF-16 buffer into the result; a no-op on
an empty buffer, an error on an undecodable buffer. -/
def pushUtf16 (res : String) (buf : List Nat) : Except LexerError String :=
  if buf.isEmpty then .ok res
  else
    match decodeUtf16 buf with
    | some cs => .ok (res ++ String.mk cs)
    | none => .error (LexerError.new "error: invalid utf-16: lone surrogate found")

/-- `Lexer::parse_string_token` after the opening quote has been consumed:
scan until the closing quote, handling pass-through escapes (re-emitted as
backslash plus the escape character), `\u` escapes (the `(0..4)` read
consumes the next 4 characters — or everything left, when fewer remain —
and keeps only the hex digits among them; an empty digit string is an
error, mirroring `u16::from_str_radix("")`), and flushing the UTF-16
buffer before any plain character and at the close.  When fewer than 4
characters follow `\u` (and at least one is a hex digit) the scan has
consumed the whole input, so the next loop step reports the missing
closing quote directly. -/
def scanStringF : Nat → List Char → String → List Nat →
    Except LexerError (Token × List Char)
  | 0, _, _, _ => .error (LexerError.new "unreachable: fuel exhausted")
  | n + 1, cs, res, buf =>
    match cs with
    | [] => .error (LexerError.new "error: not close string")
    | c1 :: cs1 =>
      if c1 = '\\' then
        match cs1 with
        | [] => .error (LexerError.new "error: a next char is expected")
        | c2 :: cs2 =>
          if c2 = '"' ∨ c2 = '\\' ∨ c2 = '/' ∨ c2 = 'b' ∨ c2 = 'f' ∨ c2 = 'n' ∨
              c2 = 'r' ∨ c2 = 't' then
            match pushUtf16 res buf with
            | .error e => .error e
            | .ok res2 => scanStringF n cs2 ((res2.push '\\').push c2) []
          else if c2 = 'u' then
            let hexs := (cs2.take 4).filter isAsciiHexDigit
            if hexs.isEmpty then
              .error (LexerError.new
                "error: a unicode character is expected cannot parse integer from empty string")
            else scanStringF n (cs2.drop 4) res (buf ++ [hexVal hexs])
          else .error (LexerError.new ("error: an unexpected escaped char " ++ c2.toString))
      else if c1 = '"' then
        match pushUtf16 res buf with
        | .error e => .error e
        | .ok res2 => .ok (Token.String res2, cs1)
      else
        match pushUtf16 res buf with
        | .error e => .error e
        | .ok res2 => scanStringF n cs1 (res2.push c1) []

/-- The scan loop with its fuel instantiated: every iteration consumes at
least one character, so `length + 1` steps always reach the loop's own
return or error before the fuel sentinel (see `scanStringF_fuel`). -/
def scanString (cs : List Char) (res : String) (buf : List Nat) :
    Except LexerError (Token × List Char) :=
  scanStringF (cs.length + 1) cs res buf

/-- `Lexer::next_token`: dispatch on the next unconsumed character,
returning the produced token and the remaining characters (`none` at end of
input).  The arm for the closing brace reproduces `lexer.rs` line 77: it
emits `Token.LeftBrace`. -/
def nextToken : List Char → Except LexerError (Option (Token × List Char))
  | [] => .ok none
  | c :: cs =>
    if c.isWhitespace then .ok (some (Token.WhiteSpace, cs))
    else if c = '{' then .ok (some (Token.LeftBrace, cs))
    else if c = '}' then .ok (some (Token.LeftBrace, cs))
    else if c = '[' then .ok (some (Token.LeftBracket, cs))
    else if c = ']' then .ok (some (Token.RightBracket, cs))
    else if c = ',' then .ok (some (Token.Comma, cs))
    else if c = ':' then .ok (some (Token.Colon, cs))
    else if c = '"' then
      match scanString cs "" [] with
      | .error e => .error e
      | .ok (t, r) => .ok (some (t, r))
    else if isNumStart c then
      let (num, rest) := scanNumber (c :: cs)
      match parseF64 (String.mk num) with
      | some q => .ok (some (Token.Number q, rest))
      | none => .error (LexerError.new "error: invalid float literal")
    else if c = 't' then
      let s := String.mk ((c :: cs).take 4)
      if s = "true" then .ok (some (Token.Bool true, (c :: cs).drop 4))
      else .error (LexerError.new ("error: a boolean true is expected " ++ s))
    else if c = 'f' then
      let s := String.mk ((c :: cs).take 5)
      if s = "false" then .ok (some (Token.Bool false, (c :: cs).drop 5))
      else .error (LexerError.new ("error: a boolean false is expected " ++ s))
    else if c = 'n' then
      let s := String.mk ((c :: cs).take 4)
      if s = "null" then .ok (some (Token.Null, (c :: cs).drop 4))
      else .error (LexerError.new ("error: a null value is expected " ++ s))
    else .error (LexerError.new ("error: an unexpected char " ++ c.toString))

/-- The `tokenize` loop with explicit fuel: repeatedly take the next token,
discarding `WhiteSpace`; `none` means the fuel ran out (shown impossible for
fuel exceeding the input length). -/
def tokenizeF : Nat → List Char → Option (Except LexerError (List Token))
  | 0, _ => none
  | n + 1, cs =>
    match nextToken cs with
    | .error e => some (.error e)
    | .ok none => some (.ok [])
    | .ok (some (t, cs')) =>
      match tokenizeF n cs' with
      | none => none
      | some (.error e) => some (.error e)
      | some (.ok ts) =>
        match t with
        | .WhiteSpace => some (.ok ts)
        | _ => some (.ok (t :: ts))

/-- `Lexer::tokenize` on a string: run the fueled loop with sufficient fuel
(the `none` fallback is unreachable, see the fuel-sufficiency theorem). -/
def tokenize (s : String) : Except LexerError (List Token) :=
  match tokenizeF (s.data.length + 1) s.data with
  | some r => r
  | none => .error (LexerError.new "unreachable: fuel exhausted")

/-- `ParserError` from `parser.rs`. -/
structure ParserError where
  msg : String
deriving Repr, DecidableEq

/-- `ParserError::new`. -/
def ParserError.new (msg : String) : ParserError := ⟨msg⟩

/-- `Value`: the JSON value tree.  `Object` holds the entries of the
`BTreeMap<String, Value>` in its iteration order (strictly ascending keys). -/
inductive Value where
  | Null
  | Bool (b : Bool)
  | Number (n : ℚ)
  | String (s : String)
  | Array (items : List Value)
  | Object (entries : List (String × Value))
deriving Repr

/-- `BTreeMap::insert` on the strictly sorted entry list: place the new
binding at the position determined by its key, overwriting an existing
binding for the same key. -/
def insertSorted (k : String) (v : Value) : List (String × Value) → List (String × Value)
  | [] => [(k, v)]
  | (k', v') :: rest =>
    if k < k' then (k, v) :: (k', v') :: rest
    else if k = k' then (k, v) :: rest
    else (k', v') :: insertSorted k v rest

/-- `Parser::peek` (`self.tokens.get(self.index)`). -/
def peek (ts : List Token) (i : Nat) : Option Token := ts.get? i

/-- `Parser::peek_expect`. -/
def peekExpect (ts : List Token) (i : Nat) : Except ParserError Token :=
  match peek ts i with
  | some t => .ok t
  | none => .error (ParserError.new "error: a token isn't peekable")

/-- `Parser::next`: return the token at the cursor and the advanced cursor. -/
def next (ts : List Token) (i : Nat) : Option Token × Nat := (ts.get? i, i + 1)

/-- `Parser::next_expect`. -/
def nextExpect (ts : List Token) (i : Nat) : Except ParserError (Token × Nat) :=
  match next ts i with
  | (some t, j) => .ok (t, j)
  | (none, _) => .error (ParserError.new "error: a token isn't peekable")

mutual

/-- `Parser::parse` with explicit fuel over the token list and cursor
index; `none` means the fuel ran out (shown impossible for sufficient
fuel).  The `LeftBrace` and `LeftBracket` branches inline `parse_object` /
`parse_array` up to their loops: the re-peeked head check always succeeds,
the head token is consumed, and the empty-collection check peeks the
following token. -/
def parseF : Nat → List Token → Nat → Option (Except ParserError (Value × Nat))
  | 0, _, _ => none
  | n + 1, ts, i =>
    match ts.get? i with
    | none => some (.error (ParserError.new "error: a token isn't peekable"))
    | some t =>
      match t with
      | .LeftBrace =>
        match ts.get? (i + 1) with
        | none => some (.error (ParserError.new "error: a token isn't peekable"))
        | some t2 =>
          if t2 = .RightBrace then some (.ok (.Object [], i + 2))
          else parseObjLoop n ts (i + 1) []
      | .LeftBracket =>
        match ts.get? (i + 1) with
        | none => some (.error (ParserError.new "error: a token isn't peekable"))
        | some t2 =>
          if t2 = .RightBracket then some (.ok (.Array [], i + 2))
          else parseArrLoop n ts (i + 1) []
      | .String s => some (.ok (.String s, i + 1))
      | .Number q => some (.ok (.Number q, i + 1))
      | .Bool b => some (.ok (.Bool b, i + 1))
      | .Null => some (.ok (.Null, i + 1))
      | _ =>
        some (.error (ParserError.new
          "error: a token must start \x7b or [ or string or number or bool or null"))

/-- The entry loop of `Parser::parse_object`: read two tokens (key and
separator), require `String` key and `Colon`, parse the value, insert,
then dispatch on the following token (`RightBrace` to return, `Comma` to
continue). -/
def parseObjLoop : Nat → List Token → Nat → List (String × Value) →
    Option (Except ParserError (Value × Nat))
  | 0, _, _, _ => none
  | n + 1, ts, i, acc =>
    match ts.get? i with
    | none => some (.error (ParserError.new "error: a token isn't peekable"))
    | some t1 =>
      match ts.get? (i + 1) with
      | none => some (.error (ParserError.new "error: a token isn't peekable"))
      | some t2 =>
        match t1, t2 with
        | .String key, .Colon =>
          match parseF n ts (i + 2) with
          | none => none
          | some (.error e) => some (.error e)
          | some (.ok (v, j)) =>
            let acc2 := insertSorted key v acc
            match ts.get? j with
            | none => some (.error (ParserError.new "error: a token isn't peekable"))
            | some .RightBrace => some (.ok (.Object acc2, j + 1))
            | some .Comma => parseObjLoop n ts (j + 1) acc2
            | some _ =>
              some (.error (ParserError.new "error: a \x7b or , token is expected"))
        | _, _ =>
          some (.error (ParserError.new
            "error: a pair (key(string) and :token) token is expected"))

/-- The element loop of `Parser::parse_array`: parse a value, append it,
then dispatch on the following token (`RightBracket` to return, `Comma` to
continue). -/
def parseArrLoop : Nat → List Token → Nat → List Value →
    Option (Except ParserError (Value × Nat))
  | 0, _, _, _ => none
  | n + 1, ts, i, acc =>
    match parseF n ts i with
    | none => none
    | some (.error e) => some (.error e)
    | some (.ok (v, j)) =>
      match ts.get? j with
      | none => some (.error (ParserError.new "error: a token isn't peekable"))
      | some .RightBracket => some (.ok (.Array (acc ++ [v]), j + 1))
      | some .Comma => parseArrLoop n ts (j + 1) (acc ++ [v])
      | some _ => some (.error (ParserError.new "error: a | or, token is expected"))

end

/-- `Parser::parse` from cursor 0 with sufficient fuel (the `none`
fallback is unreachable, see the fuel-sufficiency theorem): returns the
parsed `Value` together with the final cursor position. -/
def parse (ts : List Token) : Except ParserError (Value × Nat) :=
  match parseF (2 * ts.length + 2) ts 0 with
  | some r => r
  | none => .error (ParserError.new "unreachable: fuel exhausted")

/-- Keys strictly ascending. -/
def sortedKeys : List (String × Value) → Bool
  | [] => true
  | [_] => true
  | (k1, _) :: (k2, v2) :: rest =>
    decide (k1 < k2) && sortedKeys ((k2, v2) :: rest)

mutual

/-- Every `Object` in the value tree has strictly ascending keys. -/
def valueSorted : Value → Bool
  | .Object entries => sortedKeys entries && entriesSorted entries
  | .Array items => itemsSorted items
  | _ => true

/-- `valueSorted` of every value in an entry list. -/
def entriesSorted : List (String × Value) → Bool
  | [] => true
  | (_, v) :: rest => valueSorted v && entriesSorted rest

/-- `valueSorted` of every value in a list. -/
def itemsSorted : List Value → Bool
  | [] => true
  | v :: rest => valueSorted v && itemsSorted rest

end

/-! ### Lexer lemmas: the scan loops consume input, so fuel `length + 1`
is enough for the tokenize loop. -/

theorem scanNumber_length (cs : List Char) : (scanNumber cs).2.length ≤ cs.length := by
  induction cs with
  | nil => simp [scanNumber]
  | cons c cs ih =>
    cases hsc : scanNumber cs with
    | mk a r =>
      rw [hsc] at ih
      simp only [scanNumber, hsc]
      split
      · simpa using Nat.le_succ_of_le ih
      · simp

theorem scanStringF_length (n : Nat) :
    ∀ cs res buf t r, scanStringF n cs res buf = .ok (t, r) → r.length < cs.length := by
  induction n with
  | zero => intro cs res buf t r h; simp [scanStringF] at h
  | succ n ih =>
    intro cs res buf t r h
    match cs with
    | [] => simp [scanStringF] at h
    | c1 :: cs1 =>
      by_cases hc1 : c1 = '\\'
      · subst hc1
        match cs1 with
        | [] => simp [scanStringF] at h
        | c2 :: cs2 =>
          by_cases hpass : c2 = '"' ∨ c2 = '\\' ∨ c2 = '/' ∨ c2 = 'b' ∨ c2 = 'f' ∨
              c2 = 'n' ∨ c2 = 'r' ∨ c2 = 't'
          · simp only [scanStringF, hpass, if_true, ite_true] at h
            cases hpush : pushUtf16 res buf with
            | error e => rw [hpush] at h; cases h
            | ok res2 =>
              rw [hpush] at h
              have := ih cs2 ((res2.push '\\').push c2) [] t r h
              simp only [List.length_cons]
              omega
          · by_cases hu : c2 = 'u'
            · subst hu
              simp only [scanStringF, hpass, if_false, ite_false, eq_self_iff_true,
                if_true, ite_true] at h
              by_cases hhex : ((cs2.take 4).filter isAsciiHexDigit).isEmpty
              · simp only [hhex, if_true, ite_true] at h
                cases h
              · simp only [hhex, if_false, ite_false] at h
                have := ih (cs2.drop 4) res (buf ++ [hexVal ((cs2.take 4).filter isAsciiHexDigit)]) t r h
                have hd : (cs2.drop 4).length = cs2.length - 4 := List.length_drop 4 cs2
                simp only [List.length_cons]
                omega
            · simp only [scanStringF, hpass, hu, if_false, ite_false] at h
              cases h
      · by_cases hq : c1 = '"'
        · subst hq
          simp only [scanStringF, hc1, if_false, ite_false, eq_self_iff_true, if_true,
            ite_true] at h
          cases hpush : pushUtf16 res buf with
          | error e => rw [hpush] at h; cases h
          | ok res2 =>
            rw [hpush] at h
            cases h
            simp
        · simp only [scanStringF, hc1, hq, if_false, ite_false] at h
          cases hpush : pushUtf16 res buf with
          | error e => rw [hpush] at h; cases h
          | ok res2 =>
            rw [hpush] at h
            have := ih cs1 (res2.push c1) [] t r h
            simp only [List.length_cons]
            omega

theorem scanString_length (cs : List Char) (res : String) (buf : List Nat) :
    ∀ t r, scanString cs res buf = .ok (t, r) → r.length < cs.length := by
  intro t r h
  exact scanStringF_length (cs.length + 1) cs res buf t r h

theorem pushUtf16_error_msg (res : String) (buf : List Nat) (e : LexerError)
    (h : pushUtf16 res buf = .error e) :
    e = LexerError.new "error: invalid utf-16: lone surrogate found" := by
  simp only [pushUtf16] at h
  split at h
  · cases h
  · split at h
    · cases h
    · simp only [Except.error.injEq] at h
      exact h.symm

theorem scanStringF_fuel (n : Nat) :
    ∀ cs res buf, cs.length < n →
      scanStringF n cs res buf ≠ .error (LexerError.new "unreachable: fuel exhausted") := by
  induction n with
  | zero => intro cs res buf h; omega
  | succ n ih =>
    intro cs res buf hn
    match cs with
    | [] => simp [scanStringF, LexerError.new]
    | c1 :: cs1 =>
      by_cases hc1 : c1 = '\\'
      · subst hc1
        match cs1 with
        | [] => simp [scanStringF, LexerError.new]
        | c2 :: cs2 =>
          by_cases hpass : c2 = '"' ∨ c2 = '\\' ∨ c2 = '/' ∨ c2 = 'b' ∨ c2 = 'f' ∨
              c2 = 'n' ∨ c2 = 'r' ∨ c2 = 't'
          · simp only [scanStringF, hpass, if_true, ite_true]
            cases hpush : pushUtf16 res buf with
            | error e =>
              have he := pushUtf16_error_msg res buf e hpush
              subst he
              intro hc
              simp only [Except.error.injEq, LexerError.new, LexerError.mk.injEq] at hc
              simp at hc
            | ok res2 =>
              apply ih
              simp only [List.length_cons] at hn
              omega
          · by_cases hu : c2 = 'u'
            · subst hu
              simp only [scanStringF, hpass, if_false, ite_false, eq_self_iff_true,
                if_true, ite_true]
              by_cases hhex : ((cs2.take 4).filter isAsciiHexDigit).isEmpty
              · simp [hhex, LexerError.new]
              · simp only [hhex, if_false, ite_false]
                apply ih
                have hd : (cs2.drop 4).length = cs2.length - 4 := List.length_drop 4 cs2
                simp only [List.length_cons] at hn
                omega
            · simp only [scanStringF, hpass, hu, if_false, ite_false, if_true, ite_true]
              intro hc
              simp only [Except.error.injEq, LexerError.new, LexerError.mk.injEq] at hc
              have hlen := congrArg String.length hc
              simp [String.length_append] at hlen
              exact absurd hlen (by decide)
      · by_cases hq : c1 = '"'
        · subst hq
          simp only [scanStringF, hc1, if_false, ite_false, eq_self_iff_true, if_true,
            ite_true]
          cases hpush : pushUtf16 res buf with
          | error e =>
            have he := pushUtf16_error_msg res buf e hpush
            subst he
            intro hc
            simp only [Except.error.injEq, LexerError.new, LexerError.mk.injEq] at hc
            simp at hc
          | ok res2 => simp
        · simp only [scanStringF, hc1, hq, if_false, ite_false]
          cases hpush : pushUtf16 res buf with
          | error e =>
            have he := pushUtf16_error_msg res buf e hpush
            subst he
            intro hc
            simp only [Except.error.injEq, LexerError.new, LexerError.mk.injEq] at hc
            simp at hc
          | ok res2 =>
            apply ih
            simp only [List.length_cons] at hn
            omega

theorem isNumStart_isNumChar (c : Char) (h : isNumStart c = true) : isNumChar c = true := by
  simp only [isNumStart, Bool.or_eq_true] at h
  simp only [isNumChar, Bool.or_eq_true]
  tauto

theorem nextToken_shrink (cs : List Char) (t : Token) (cs' : List Char)
    (h : nextToken cs = .ok (some (t, cs'))) : cs'.length < cs.length := by
  match cs with
  | [] => simp [nextToken] at h
  | c :: cs =>
    by_cases hw : c.isWhitespace
    · simp only [nextToken, hw, if_true] at h
      cases h
      simp
    · by_cases h1 : c = '{'
      · subst h1
        simp only [nextToken, hw, eq_self_iff_true, if_true, if_false, ite_true,
          ite_false] at h
        cases h
        simp
      · by_cases h2 : c = '}'
        · subst h2
          simp only [nextToken, hw, h1, eq_self_iff_true, if_true, if_false, ite_true,
            ite_false] at h
          cases h
          simp
        · by_cases h3 : c = '['
          · subst h3
            simp only [nextToken, hw, h1, h2, eq_self_iff_true, if_true, if_false, ite_true,
              ite_false] at h
            cases h
            simp
          · by_cases h4 : c = ']'
            · subst h4
              simp only [nextToken, hw, h1, h2, h3, eq_self_iff_true, if_true, if_false,
                ite_true, ite_false] at h
              cases h
              simp
            · by_cases h5 : c = ','
              · subst h5
                simp only [nextToken, hw, h1, h2, h3, h4, eq_self_iff_true, if_true,
                  if_false, ite_true, ite_false] at h
                cases h
                simp
              · by_cases h6 : c = ':'
                · subst h6
                  simp only [nextToken, hw, h1, h2, h3, h4, h5, eq_self_iff_true, if_true,
                    if_false, ite_true, ite_false] at h
                  cases h
                  simp
                · by_cases h7 : c = '"'
                  · subst h7
                    simp only [nextToken, hw, h1, h2, h3, h4, h5, h6, eq_self_iff_true,
                      if_true, if_false, ite_true, ite_false] at h
                    cases hscan : scanString cs "" [] with
                    | error e => rw [hscan] at h; cases h
                    | ok p =>
                      obtain ⟨t0, r0⟩ := p
                      rw [hscan] at h
                      cases h
                      have := scanString_length cs "" [] _ _ hscan
                      simp only [List.length_cons]
                      omega
                  · by_cases h8 : isNumStart c
                    · cases hsn : scanNumber cs with
                      | mk a r =>
                        have hnc : isNumChar c = true := isNumStart_isNumChar c h8
                        have hr := scanNumber_length cs
                        rw [hsn] at hr
                        simp only [] at hr
                        simp only [nextToken, hw, h1, h2, h3, h4, h5, h6, h7, h8,
                          eq_self_iff_true, if_true, if_false, ite_true, ite_false,
                          scanNumber, hnc, hsn] at h
                        cases hpf : parseF64 (String.mk (c :: a)) with
                        | none => rw [hpf] at h; cases h
                        | some q =>
                          rw [hpf] at h
                          cases h
                          simp only [List.length_cons]
                          omega
                    · by_cases h9 : c = 't'
                      · subst h9
                        by_cases hlit : String.mk (('t' :: cs).take 4) = "true"
                        · simp only [nextToken, hw, h1, h2, h3, h4, h5, h6, h7, h8, hlit,
                            eq_self_iff_true, if_true, if_false, ite_true, ite_false] at h
                          cases h
                          have := List.length_drop 4 ('t' :: cs)
                          simp only [List.length_cons] at *
                          omega
                        · simp only [nextToken, hw, h1, h2, h3, h4, h5, h6, h7, h8, hlit,
                            eq_self_iff_true, if_true, if_false, ite_true, ite_false] at h
                          simp at h
                      · by_cases h10 : c = 'f'
                        · subst h10
                          by_cases hlit : String.mk (('f' :: cs).take 5) = "false"
                          · simp only [nextToken, hw, h1, h2, h3, h4, h5, h6, h7, h8, h9,
                              hlit, eq_self_iff_true, if_true, if_false, ite_true,
                              ite_false] at h
                            cases h
                            have := List.length_drop 5 ('f' :: cs)
                            simp only [List.length_cons] at *
                            omega
                          · simp only [nextToken, hw, h1, h2, h3, h4, h5, h6, h7, h8, h9,
                              hlit, eq_self_iff_true, if_true, if_false, ite_true,
                              ite_false] at h
                            simp at h
                        · by_cases h11 : c = 'n'
                          · subst h11
                            by_cases hlit : String.mk (('n' :: cs).take 4) = "null"
                            · simp only [nextToken, hw, h1, h2, h3, h4, h5, h6, h7, h8, h9,
                                h10, hlit, eq_self_iff_true, if_true, if_false, ite_true,
                                ite_false] at h
                              cases h
                              have := List.length_drop 4 ('n' :: cs)
                              simp only [List.length_cons] at *
                              omega
                            · simp only [nextToken, hw, h1, h2, h3, h4, h5, h6, h7, h8, h9,
                                h10, hlit, eq_self_iff_true, if_true, if_false, ite_true,
                                ite_false] at h
                              simp at h
                          · simp only [nextToken, hw, h1, h2, h3, h4, h5, h6, h7, h8, h9,
                              h10, h11, eq_self_iff_true, if_true, if_false, ite_true,
                              ite_false] at h
                            simp at h

theorem tokenizeF_sufficient (n : Nat) :
    ∀ cs : List Char, cs.length < n → tokenizeF n cs ≠ none := by
  induction n with
  | zero => intro cs h; omega
  | succ n ih =>
    intro cs h
    simp only [tokenizeF]
    split
    · simp
    · simp
    · rename_i t cs' hnt
      have hlt := nextToken_shrink cs t cs' hnt
      have := ih cs' (by omega)
      split
      · exact absurd (by assumption) this
      · simp
      · split <;> simp

/-! ### Parser lemmas: progress (the cursor strictly advances on success)
and fuel sufficiency. -/

theorem getSomeLt {α : Type} (l : List α) (i : Nat) (a : α) (h : l.get? i = some a) :
    i < l.length := by
  by_contra hc
  rw [List.get?_eq_none.mpr (Nat.le_of_not_lt hc)] at h
  cases h

theorem parseProgress (n : Nat) :
    (∀ ts i v j, parseF n ts i = some (.ok (v, j)) → i < j) ∧
    (∀ ts i acc v j, parseArrLoop n ts i acc = some (.ok (v, j)) → i < j) ∧
    (∀ ts i acc v j, parseObjLoop n ts i acc = some (.ok (v, j)) → i < j) := by
  induction n with
  | zero =>
    refine ⟨?_, ?_, ?_⟩
    · intro ts i v j h; simp [parseF] at h
    · intro ts i acc v j h; simp [parseArrLoop] at h
    · intro ts i acc v j h; simp [parseObjLoop] at h
  | succ n ih =>
    obtain ⟨ihP, ihA, ihO⟩ := ih
    refine ⟨?_, ?_, ?_⟩
    · intro ts i v j h
      simp only [parseF] at h
      cases hg : ts.get? i with
      | none => rw [hg] at h; simp at h
      | some t =>
        rw [hg] at h
        cases t with
        | LeftBrace =>
          cases hg2 : ts.get? (i + 1) with
          | none => rw [hg2] at h; simp at h
          | some t2 =>
            rw [hg2] at h
            by_cases ht2 : t2 = Token.RightBrace
            · simp only [ht2, if_true, ite_true] at h
              simp only [Option.some.injEq, Except.ok.injEq, Prod.mk.injEq] at h
              omega
            · simp only [ht2, if_false, ite_false] at h
              have := ihO ts (i + 1) [] v j h
              omega
        | LeftBracket =>
          cases hg2 : ts.get? (i + 1) with
          | none => rw [hg2] at h; simp at h
          | some t2 =>
            rw [hg2] at h
            by_cases ht2 : t2 = Token.RightBracket
            · simp only [ht2, if_true, ite_true] at h
              simp only [Option.some.injEq, Except.ok.injEq, Prod.mk.injEq] at h
              omega
            · simp only [ht2, if_false, ite_false] at h
              have := ihA ts (i + 1) [] v j h
              omega
        | String s =>
          simp only [Option.some.injEq, Except.ok.injEq, Prod.mk.injEq] at h
          omega
        | Number q =>
          simp only [Option.some.injEq, Except.ok.injEq, Prod.mk.injEq] at h
          omega
        | Bool b =>
          simp only [Option.some.injEq, Except.ok.injEq, Prod.mk.injEq] at h
          omega
        | Null =>
          simp only [Option.some.injEq, Except.ok.injEq, Prod.mk.injEq] at h
          omega
        | WhiteSpace => simp at h
        | RightBrace => simp at h
        | RightBracket => simp at h
        | Comma => simp at h
        | Colon => simp at h
    · intro ts i acc v j h
      simp only [parseArrLoop] at h
      cases hp : parseF n ts i with
      | none => rw [hp] at h; simp at h
      | some r =>
        cases r with
        | error e => rw [hp] at h; simp at h
        | ok p =>
          obtain ⟨v0, j0⟩ := p
          rw [hp] at h
          simp only [] at h
          have hij0 := ihP ts i v0 j0 hp
          cases hg : ts.get? j0 with
          | none => rw [hg] at h; simp at h
          | some t3 =>
            rw [hg] at h
            cases t3 with
            | RightBracket =>
              simp only [Option.some.injEq, Except.ok.injEq, Prod.mk.injEq] at h
              omega
            | Comma =>
              have := ihA ts (j0 + 1) (acc ++ [v0]) v j h
              omega
            | String s => simp at h
            | Number q => simp at h
            | Bool b => simp at h
            | Null => simp at h
            | WhiteSpace => simp at h
            | LeftBrace => simp at h
            | RightBrace => simp at h
            | LeftBracket => simp at h
            | Colon => simp at h
    · intro ts i acc v j h
      simp only [parseObjLoop] at h
      cases hg1 : ts.get? i with
      | none => rw [hg1] at h; simp at h
      | some t1 =>
        rw [hg1] at h
        cases hg2 : ts.get? (i + 1) with
        | none => rw [hg2] at h; simp at h
        | some t2 =>
          rw [hg2] at h
          cases t1 with
          | String key =>
            cases t2 with
            | Colon =>
              cases hp : parseF n ts (i + 2) with
              | none => rw [hp] at h; simp at h
              | some r =>
                cases r with
                | error e => rw [hp] at h; simp at h
                | ok p =>
                  obtain ⟨v0, j0⟩ := p
                  rw [hp] at h
                  simp only [] at h
                  have hij0 := ihP ts (i + 2) v0 j0 hp
                  cases hg3 : ts.get? j0 with
                  | none => rw [hg3] at h; simp at h
                  | some t3 =>
                    rw [hg3] at h
                    cases t3 with
                    | RightBrace =>
                      simp only [Option.some.injEq, Except.ok.injEq, Prod.mk.injEq] at h
                      omega
                    | Comma =>
                      have := ihO ts (j0 + 1) (insertSorted key v0 acc) v j h
                      omega
                    | String s => simp at h
                    | Number q => simp at h
                    | Bool b => simp at h
                    | Null => simp at h
                    | WhiteSpace => simp at h
                    | LeftBrace => simp at h
                    | LeftBracket => simp at h
                    | RightBracket => simp at h
                    | Colon => simp at h
            | String s => simp at h
            | Number q => simp at h
            | Bool b => simp at h
            | Null => simp at h
            | WhiteSpace => simp at h
            | LeftBrace => simp at h
            | RightBrace => simp at h
            | LeftBracket => simp at h
            | RightBracket => simp at h
            | Comma => simp at h
          | Number q => simp at h
          | Bool b => simp at h
          | Null => simp at h
          | WhiteSpace => simp at h
          | LeftBrace => simp at h
          | RightBrace => simp at h
          | LeftBracket => simp at h
          | RightBracket => simp at h
          | Comma => simp at h
          | Colon => simp at h

theorem parseFuel (n : Nat) :
    (∀ ts i, 2 * (ts.length - i) < n → parseF n ts i ≠ none) ∧
    (∀ ts i acc, 2 * (ts.length - i) + 1 < n → parseArrLoop n ts i acc ≠ none) ∧
    (∀ ts i acc, 2 * (ts.length - i) + 1 < n → parseObjLoop n ts i acc ≠ none) := by
  induction n with
  | zero =>
    refine ⟨?_, ?_, ?_⟩
    · intro ts i hn; omega
    · intro ts i acc hn; omega
    · intro ts i acc hn; omega
  | succ n ih =>
    obtain ⟨ihP, ihA, ihO⟩ := ih
    have prog := parseProgress n
    refine ⟨?_, ?_, ?_⟩
    · intro ts i hn
      simp only [parseF]
      cases hg : ts.get? i with
      | none => simp
      | some t =>
        have hi : i < ts.length := getSomeLt ts i t hg
        cases t with
        | LeftBrace =>
          cases hg2 : ts.get? (i + 1) with
          | none => simp
          | some t2 =>
            have hi2 : i + 1 < ts.length := getSomeLt ts (i + 1) t2 hg2
            by_cases ht2 : t2 = Token.RightBrace
            · simp [ht2]
            · simp only [ht2, if_false, ite_false]
              exact ihO ts (i + 1) [] (by omega)
        | LeftBracket =>
          cases hg2 : ts.get? (i + 1) with
          | none => simp
          | some t2 =>
            have hi2 : i + 1 < ts.length := getSomeLt ts (i + 1) t2 hg2
            by_cases ht2 : t2 = Token.RightBracket
            · simp [ht2]
            · simp only [ht2, if_false, ite_false]
              exact ihA ts (i + 1) [] (by omega)
        | String s => simp
        | Number q => simp
        | Bool b => simp
        | Null => simp
        | WhiteSpace => simp
        | RightBrace => simp
        | RightBracket => simp
        | Comma => simp
        | Colon => simp
    · intro ts i acc hn
      simp only [parseArrLoop]
      cases hp : parseF n ts i with
      | none => exact absurd hp (ihP ts i (by omega))
      | some r =>
        cases r with
        | error e => simp
        | ok p =>
          obtain ⟨v0, j0⟩ := p
          simp only []
          have hij0 := prog.1 ts i v0 j0 hp
          cases hg : ts.get? j0 with
          | none => simp
          | some t3 =>
            have hj0 : j0 < ts.length := getSomeLt ts j0 t3 hg
            cases t3 with
            | RightBracket => simp
            | Comma => exact ihA ts (j0 + 1) (acc ++ [v0]) (by omega)
            | String s => simp
            | Number q => simp
            | Bool b => simp
            | Null => simp
            | WhiteSpace => simp
            | LeftBrace => simp
            | RightBrace => simp
            | LeftBracket => simp
            | Colon => simp
    · intro ts i acc hn
      simp only [parseObjLoop]
      cases hg1 : ts.get? i with
      | none => simp
      | some t1 =>
        have hi1 : i < ts.length := getSomeLt ts i t1 hg1
        cases hg2 : ts.get? (i + 1) with
        | none => simp
        | some t2 =>
          have hi2 : i + 1 < ts.length := getSomeLt ts (i + 1) t2 hg2
          cases t1 with
          | String key =>
            cases t2 with
            | Colon =>
              cases hp : parseF n ts (i + 2) with
              | none => exact absurd hp (ihP ts (i + 2) (by omega))
              | some r =>
                cases r with
                | error e => simp
                | ok p =>
                  obtain ⟨v0, j0⟩ := p
                  simp only []
                  have hij0 := prog.1 ts (i + 2) v0 j0 hp
                  cases hg3 : ts.get? j0 with
                  | none => simp
                  | some t3 =>
                    have hj0 : j0 < ts.length := getSomeLt ts j0 t3 hg3
                    cases t3 with
                    | RightBrace => simp
                    | Comma => exact ihO ts (j0 + 1) (insertSorted key v0 acc) (by omega)
                    | String s => simp
                    | Number q => simp
                    | Bool b => simp
                    | Null => simp
                    | WhiteSpace => simp
                    | LeftBrace => simp
                    | LeftBracket => simp
                    | RightBracket => simp
                    | Colon => simp
            | String s => simp
            | Number q => simp
            | Bool b => simp
            | Null => simp
            | WhiteSpace => simp
            | LeftBrace => simp
            | RightBrace => simp
            | LeftBracket => simp
            | RightBracket => simp
            | Comma => simp
          | Number q => simp
          | Bool b => simp
          | Null => simp
          | WhiteSpace => simp
          | LeftBrace => simp
          | RightBrace => simp
          | LeftBracket => simp
          | RightBracket => simp
          | Comma => simp
          | Colon => simp

/-! ### Ordered-insert lemmas: the `BTreeMap` model keeps keys strictly
sorted, overwrites duplicates, and is insertion-order independent. -/

theorem sortedKeys_val_irrel (k : String) (v v' : Value) (t : List (String × Value)) :
    sortedKeys ((k, v) :: t) = sortedKeys ((k, v') :: t) := by
  cases t with
  | nil => simp [sortedKeys]
  | cons p t => cases p; simp [sortedKeys]

theorem insertSorted_cons_sorted (l : List (String × Value)) :
    ∀ (k : String) (v : Value) (k0 : String) (v0 : Value), k0 < k →
      sortedKeys ((k0, v0) :: l) = true →
      sortedKeys ((k0, v0) :: insertSorted k v l) = true := by
  induction l with
  | nil =>
    intro k v k0 v0 hk h
    simp [insertSorted, sortedKeys, hk]
  | cons p t ih =>
    intro k v k0 v0 hk h
    obtain ⟨k1, v1⟩ := p
    simp only [sortedKeys, Bool.and_eq_true, decide_eq_true_eq] at h
    obtain ⟨h01, h1t⟩ := h
    rcases lt_trichotomy k k1 with hlt | heq | hgt
    · simp only [insertSorted, hlt, if_true, ite_true]
      simp only [sortedKeys, Bool.and_eq_true, decide_eq_true_eq]
      exact ⟨hk, hlt, by simpa [sortedKeys, Bool.and_eq_true, decide_eq_true_eq] using h1t⟩
    · subst heq
      simp only [insertSorted, lt_irrefl, if_false, ite_false, if_true, ite_true,
        eq_self_iff_true]
      simp only [sortedKeys, Bool.and_eq_true, decide_eq_true_eq]
      refine ⟨hk, ?_⟩
      rw [sortedKeys_val_irrel k v v1 t]
      exact h1t
    · have hne : ¬ k < k1 := asymm hgt
      have hne2 : ¬ k = k1 := (ne_of_gt hgt)
      simp only [insertSorted, hne, hne2, if_false, ite_false]
      simp only [sortedKeys, Bool.and_eq_true, decide_eq_true_eq]
      exact ⟨h01, ih k v k1 v1 hgt h1t⟩

theorem insertSorted_sortedKeys (k : String) (v : Value) (l : List (String × Value))
    (h : sortedKeys l = true) : sortedKeys (insertSorted k v l) = true := by
  cases l with
  | nil => simp [insertSorted, sortedKeys]
  | cons p t =>
    obtain ⟨k1, v1⟩ := p
    rcases lt_trichotomy k k1 with hlt | heq | hgt
    · simp only [insertSorted, hlt, if_true, ite_true]
      simp only [sortedKeys, Bool.and_eq_true, decide_eq_true_eq]
      exact ⟨hlt, h⟩
    · subst heq
      simp only [insertSorted, lt_irrefl, if_false, ite_false, if_true, ite_true,
        eq_self_iff_true]
      rw [sortedKeys_val_irrel k v v1 t]
      exact h
    · have hne : ¬ k < k1 := asymm hgt
      have hne2 : ¬ k = k1 := (ne_of_gt hgt)
      simp only [insertSorted, hne, hne2, if_false, ite_false]
      exact insertSorted_cons_sorted t k v k1 v1 hgt h

theorem insertSorted_entriesSorted (k : String) (v : Value) (l : List (String × Value))
    (hv : valueSorted v = true) (h : entriesSorted l = true) :
    entriesSorted (insertSorted k v l) = true := by
  induction l with
  | nil => simp [insertSorted, entriesSorted, hv]
  | cons p t ih =>
    obtain ⟨k1, v1⟩ := p
    simp only [entriesSorted, Bool.and_eq_true] at h
    obtain ⟨hv1, ht⟩ := h
    rcases lt_trichotomy k k1 with hlt | heq | hgt
    · simp only [insertSorted, hlt, if_true, ite_true]
      simp only [entriesSorted, Bool.and_eq_true]
      exact ⟨hv, hv1, ht⟩
    · subst heq
      simp only [insertSorted, lt_irrefl, if_false, ite_false, if_true, ite_true,
        eq_self_iff_true]
      simp only [entriesSorted, Bool.and_eq_true]
      exact ⟨hv, ht⟩
    · have hne : ¬ k < k1 := asymm hgt
      have hne2 : ¬ k = k1 := (ne_of_gt hgt)
      simp only [insertSorted, hne, hne2, if_false, ite_false]
      simp only [entriesSorted, Bool.and_eq_true]
      exact ⟨hv1, ih ht⟩

theorem itemsSorted_append (l : List Value) (v : Value)
    (hl : itemsSorted l = true) (hv : valueSorted v = true) :
    itemsSorted (l ++ [v]) = true := by
  induction l with
  | nil => simp [itemsSorted, hv]
  | cons x t ih =>
    simp only [itemsSorted, Bool.and_eq_true] at hl
    simp only [List.cons_append, itemsSorted, Bool.and_eq_true]
    exact ⟨hl.1, ih hl.2⟩

theorem insertSorted_last_wins (k : String) (v v' : Value) (l : List (String × Value)) :
    insertSorted k v (insertSorted k v' l) = insertSorted k v l := by
  induction l with
  | nil => simp [insertSorted]
  | cons p t ih =>
    obtain ⟨k1, v1⟩ := p
    rcases lt_trichotomy k k1 with hlt | heq | hgt
    · simp [insertSorted, hlt]
    · subst heq
      simp [insertSorted]
    · have hne : ¬ k < k1 := asymm hgt
      have hne2 : ¬ k = k1 := (ne_of_gt hgt)
      simp [insertSorted, hne, hne2, ih]

theorem insertSorted_comm (k k' : String) (v v' : Value) (l : List (String × Value))
    (hkk : k ≠ k') :
    insertSorted k v (insertSorted k' v' l) = insertSorted k' v' (insertSorted k v l) := by
  induction l with
  | nil =>
    rcases lt_trichotomy k k' with hlt | heq | hgt
    · simp [insertSorted, hlt, asymm hlt, hkk, hkk.symm]
    · exact absurd heq hkk
    · simp [insertSorted, hgt, asymm hgt, hkk, hkk.symm]
  | cons p t ih =>
    obtain ⟨k1, v1⟩ := p
    rcases lt_trichotomy k k1 with hlt1 | heq1 | hgt1 <;>
      rcases lt_trichotomy k' k1 with hlt2 | heq2 | hgt2
    · rcases lt_trichotomy k k' with hlt | heq | hgt
      · simp [insertSorted, hlt1, hlt2, hlt, asymm hlt, hkk, hkk.symm]
      · exact absurd heq hkk
      · simp [insertSorted, hlt1, hlt2, hgt, asymm hgt, hkk, hkk.symm]
    · subst heq2
      simp [insertSorted, hlt1, asymm hlt1, hkk.symm, ne_of_gt hlt1]
    · have h1 : ¬ k' < k1 := asymm hgt2
      have h2 : ¬ k' = k1 := ne_of_gt hgt2
      have hklt : k < k' := lt_trans hlt1 hgt2
      simp [insertSorted, hlt1, h1, h2, hklt, asymm hklt, hkk, hkk.symm]
    · subst heq1
      simp [insertSorted, hlt2, asymm hlt2, hkk, ne_of_gt hlt2, hkk.symm]
    · subst heq1
      exact absurd heq2 hkk.symm
    · subst heq1
      have h1 : ¬ k' < k := asymm hgt2
      have h2 : ¬ k' = k := ne_of_gt hgt2
      simp [insertSorted, hgt2, h1, h2, hkk.symm]
    · have h1 : ¬ k < k1 := asymm hgt1
      have h2 : ¬ k = k1 := ne_of_gt hgt1
      have hklt : k' < k := lt_trans hlt2 hgt1
      simp [insertSorted, hlt2, h1, h2, hklt, asymm hklt, hkk, hkk.symm]
    · subst heq2
      have h1 : ¬ k < k' := asymm hgt1
      simp [insertSorted, h1, hkk, lt_self_iff_false]
    · have h1 : ¬ k < k1 := asymm hgt1
      have h2 : ¬ k = k1 := ne_of_gt hgt1
      have h3 : ¬ k' < k1 := asymm hgt2
      have h4 : ¬ k' = k1 := ne_of_gt hgt2
      simp [insertSorted, h1, h2, h3, h4, ih]

theorem parseSorted (n : Nat) :
    (∀ ts i v j, parseF n ts i = some (.ok (v, j)) → valueSorted v = true) ∧
    (∀ ts i acc v j, itemsSorted acc = true →
      parseArrLoop n ts i acc = some (.ok (v, j)) → valueSorted v = true) ∧
    (∀ ts i acc v j, sortedKeys acc = true → entriesSorted acc = true →
      parseObjLoop n ts i acc = some (.ok (v, j)) → valueSorted v = true) := by
  induction n with
  | zero =>
    refine ⟨?_, ?_, ?_⟩
    · intro ts i v j h; simp [parseF] at h
    · intro ts i acc v j _ h; simp [parseArrLoop] at h
    · intro ts i acc v j _ _ h; simp [parseObjLoop] at h
  | succ n ih =>
    obtain ⟨ihP, ihA, ihO⟩ := ih
    refine ⟨?_, ?_, ?_⟩
    · intro ts i v j h
      simp only [parseF] at h
      cases hg : ts.get? i with
      | none => rw [hg] at h; simp at h
      | some t =>
        rw [hg] at h
        cases t with
        | LeftBrace =>
          cases hg2 : ts.get? (i + 1) with
          | none => rw [hg2] at h; simp at h
          | some t2 =>
            rw [hg2] at h
            by_cases ht2 : t2 = Token.RightBrace
            · simp only [ht2, if_true, ite_true] at h
              simp only [Option.some.injEq, Except.ok.injEq, Prod.mk.injEq] at h
              rw [← h.1]
              simp [valueSorted, sortedKeys, entriesSorted]
            · simp only [ht2, if_false, ite_false] at h
              exact ihO ts (i + 1) [] v j (by simp [sortedKeys]) (by simp [entriesSorted]) h
        | LeftBracket =>
          cases hg2 : ts.get? (i + 1) with
          | none => rw [hg2] at h; simp at h
          | some t2 =>
            rw [hg2] at h
            by_cases ht2 : t2 = Token.RightBracket
            · simp only [ht2, if_true, ite_true] at h
              simp only [Option.some.injEq, Except.ok.injEq, Prod.mk.injEq] at h
              rw [← h.1]
              simp [valueSorted, itemsSorted]
            · simp only [ht2, if_false, ite_false] at h
              exact ihA ts (i + 1) [] v j (by simp [itemsSorted]) h
        | String s =>
          simp only [Option.some.injEq, Except.ok.injEq, Prod.mk.injEq] at h
          rw [← h.1]; simp [valueSorted]
        | Number q =>
          simp only [Option.some.injEq, Except.ok.injEq, Prod.mk.injEq] at h
          rw [← h.1]; simp [valueSorted]
        | Bool b =>
          simp only [Option.some.injEq, Except.ok.injEq, Prod.mk.injEq] at h
          rw [← h.1]; simp [valueSorted]
        | Null =>
          simp only [Option.some.injEq, Except.ok.injEq, Prod.mk.injEq] at h
          rw [← h.1]; simp [valueSorted]
        | WhiteSpace => simp at h
        | RightBrace => simp at h
        | RightBracket => simp at h
        | Comma => simp at h
        | Colon => simp at h
    · intro ts i acc v j hacc h
      simp only [parseArrLoop] at h
      cases hp : parseF n ts i with
      | none => rw [hp] at h; simp at h
      | some r =>
        cases r with
        | error e => rw [hp] at h; simp at h
        | ok p =>
          obtain ⟨v0, j0⟩ := p
          rw [hp] at h
          simp only [] at h
          have hv0 := ihP ts i v0 j0 hp
          cases hg : ts.get? j0 with
          | none => rw [hg] at h; simp at h
          | some t3 =>
            rw [hg] at h
            cases t3 with
            | RightBracket =>
              simp only [Option.some.injEq, Except.ok.injEq, Prod.mk.injEq] at h
              rw [← h.1]
              simp only [valueSorted]
              exact itemsSorted_append acc v0 hacc hv0
            | Comma =>
              exact ihA ts (j0 + 1) (acc ++ [v0]) v j
                (itemsSorted_append acc v0 hacc hv0) h
            | String s => simp at h
            | Number q => simp at h
            | Bool b => simp at h
            | Null => simp at h
            | WhiteSpace => simp at h
            | LeftBrace => simp at h
            | RightBrace => simp at h
            | LeftBracket => simp at h
            | Colon => simp at h
    · intro ts i acc v j hkeys hvals h
      simp only [parseObjLoop] at h
      cases hg1 : ts.get? i with
      | none => rw [hg1] at h; simp at h
      | some t1 =>
        rw [hg1] at h
        cases hg2 : ts.get? (i + 1) with
        | none => rw [hg2] at h; simp at h
        | some t2 =>
          rw [hg2] at h
          cases t1 with
          | String key =>
            cases t2 with
            | Colon =>
              cases hp : parseF n ts (i + 2) with
              | none => rw [hp] at h; simp at h
              | some r =>
                cases r with
                | error e => rw [hp] at h; simp at h
                | ok p =>
                  obtain ⟨v0, j0⟩ := p
                  rw [hp] at h
                  simp only [] at h
                  have hv0 := ihP ts (i + 2) v0 j0 hp
                  have hkeys2 := insertSorted_sortedKeys key v0 acc hkeys
                  have hvals2 := insertSorted_entriesSorted key v0 acc hv0 hvals
                  cases hg3 : ts.get? j0 with
                  | none => rw [hg3] at h; simp at h
                  | some t3 =>
                    rw [hg3] at h
                    cases t3 with
                    | RightBrace =>
                      simp only [Option.some.injEq, Except.ok.injEq, Prod.mk.injEq] at h
                      rw [← h.1]
                      simp only [valueSorted, Bool.and_eq_true]
                      exact ⟨hkeys2, hvals2⟩
                    | Comma =>
                      exact ihO ts (j0 + 1) (insertSorted key v0 acc) v j hkeys2 hvals2 h
                    | String s => simp at h
                    | Number q => simp at h
                    | Bool b => simp at h
                    | Null => simp at h
                    | WhiteSpace => simp at h
                    | LeftBrace => simp at h
                    | LeftBracket => simp at h
                    | RightBracket => simp at h
                    | Colon => simp at h
            | String s => simp at h
            | Number q => simp at h
            | Bool b => simp at h
            | Null => simp at h
            | WhiteSpace => simp at h
            | LeftBrace => simp at h
            | RightBrace => simp at h
            | LeftBracket => simp at h
            | RightBracket => simp at h
            | Comma => simp at h
          | Number q => simp at h
          | Bool b => simp at h
          | Null => simp at h
          | WhiteSpace => simp at h
          | LeftBrace => simp at h
          | RightBrace => simp at h
          | LeftBracket => simp at h
          | RightBracket => simp at h
          | Comma => simp at h
          | Colon => simp at h

/-! ### Claim theorems -/

/-- C1: the spec says `}` must lex to a RightBrace token distinct from
LeftBrace.  The code (`lexer.rs` line 77) instead emits `LeftBrace` for the
closing brace — evaluated here: tokenizing `"}"` yields `LeftBrace`, the
very token produced for `"{"`, even though a distinct `RightBrace` kind
exists. -/
theorem c1_closing_brace_lexed_as_LeftBrace :
    tokenize "\x7d" = .ok [Token.LeftBrace] ∧
    tokenize "\x7b" = .ok [Token.LeftBrace] ∧
    Token.LeftBrace ≠ Token.RightBrace :=
  ⟨rfl, rfl, by decide⟩

/-- C2: the spec says `"{}"` parses to an empty Object and `"[]"` to an
empty Array.  Because of the closing-brace lexer bug, `"{}"` tokenizes to
`[LeftBrace, LeftBrace]` and parsing that fails; the `"[]"` half holds. -/
theorem c2_empty_object_fails_empty_array_parses :
    tokenize "{}" = .ok [Token.LeftBrace, Token.LeftBrace] ∧
    parse [Token.LeftBrace, Token.LeftBrace] =
      .error (ParserError.new "error: a token isn't peekable") ∧
    tokenize "[]" = .ok [Token.LeftBracket, Token.RightBracket] ∧
    parse [Token.LeftBracket, Token.RightBracket] = .ok (Value.Array [], 2) :=
  ⟨rfl, rfl, rfl, rfl⟩

/-- C3: every Object produced by a successful parse has entries strictly
sorted by key (hence lexicographically ordered and duplicate-free), at
every nesting level; the map insert overwrites an existing binding for the
same key (last occurrence wins) and inserts for distinct keys commute (the
position depends only on the key, not on insertion order). -/
theorem c3_object_entries_sorted_unique_last_wins :
    (∀ ts v j, parse ts = .ok (v, j) → valueSorted v = true) ∧
    (∀ (k : String) (v v' : Value) (l : List (String × Value)),
      insertSorted k v (insertSorted k v' l) = insertSorted k v l) ∧
    (∀ (k k' : String) (v v' : Value) (l : List (String × Value)), k ≠ k' →
      insertSorted k v (insertSorted k' v' l) =
        insertSorted k' v' (insertSorted k v l)) := by
  refine ⟨?_, insertSorted_last_wins, insertSorted_comm⟩
  intro ts v j h
  simp only [parse] at h
  cases hp : parseF (2 * ts.length + 2) ts 0 with
  | none => rw [hp] at h; cases h
  | some r =>
    rw [hp] at h
    simp only [] at h
    subst h
    exact (parseSorted (2 * ts.length + 2)).1 ts 0 v j hp

/-- Witness for C3 at concrete inputs: `parse [Null]` succeeds and its
value satisfies the sortedness invariant; inserting the same key twice
keeps only the last value; inserts of the distinct keys `"a"`, `"b"`
commute. -/
theorem c3_witness :
    valueSorted Value.Null = true ∧
    insertSorted "a" Value.Null (insertSorted "a" (Value.Bool true) []) =
      insertSorted "a" Value.Null [] ∧
    insertSorted "a" Value.Null (insertSorted "b" (Value.Bool true) []) =
      insertSorted "b" (Value.Bool true) (insertSorted "a" Value.Null []) :=
  ⟨c3_object_entries_sorted_unique_last_wins.1 [Token.Null] Value.Null 1 rfl,
   c3_object_entries_sorted_unique_last_wins.2.1 "a" Value.Null (Value.Bool true) [],
   c3_object_entries_sorted_unique_last_wins.2.2 "a" "b" Value.Null (Value.Bool true) []
     (by decide)⟩

/-- C4: number scanning accepts the permissive character class and then
applies float parsing: `"3"`, `"+3"`, `"-3"`, `"1e3"`, `"0.3"`, `".3"`
each tokenize to exactly one Number token with the expected value
(`"1e3"` gives 1000), while `"+-3"` passes the character class but fails
at the float-parse step with a LexError. -/
theorem c4_number_scanning :
    tokenize "3" = .ok [Token.Number 3] ∧
    tokenize "+3" = .ok [Token.Number 3] ∧
    tokenize "-3" = .ok [Token.Number (-3)] ∧
    tokenize "1e3" = .ok [Token.Number 1000] ∧
    tokenize "0.3" = .ok [Token.Number (3 / 10)] ∧
    tokenize ".3" = .ok [Token.Number (3 / 10)] ∧
    tokenize "+-3" = .error (LexerError.new "error: invalid float literal") := by
  refine ⟨?_, ?_, ?_, ?_, ?_, ?_, ?_⟩
  · simp [tokenize, tokenizeF, nextToken, scanNumber, parseF64, digitsToNat, isNumChar,
      isNumStart]
  · simp [tokenize, tokenizeF, nextToken, scanNumber, parseF64, digitsToNat, isNumChar,
      isNumStart]
  · simp [tokenize, tokenizeF, nextToken, scanNumber, parseF64, digitsToNat, isNumChar,
      isNumStart]
  · simp [tokenize, tokenizeF, nextToken, scanNumber, parseF64, digitsToNat, isNumChar,
      isNumStart]
    norm_num
  · simp [tokenize, tokenizeF, nextToken, scanNumber, parseF64, digitsToNat, isNumChar,
      isNumStart]
  · simp [tokenize, tokenizeF, nextToken, scanNumber, parseF64, digitsToNat, isNumChar,
      isNumStart]
  · simp [tokenize, tokenizeF, nextToken, scanNumber, parseF64, digitsToNat, isNumChar,
      isNumStart]

/-- C5: string scanning re-emits pass-through escapes literally (backslash
plus escape character, not decoded), buffers and decodes `\uXXXX` code
units including surrogate pairs, and reports a LexError when end of input
is reached before the closing quote. -/
theorem c5_string_scanning :
    tokenize "\"hello world\"" = .ok [Token.String "hello world"] ∧
    tokenize "\"\\u3042\\u3044\\u3046abc\"" = .ok [Token.String "あいうabc"] ∧
    tokenize "\"\\uD83D\\uDE04\"" = .ok [Token.String "😄"] ∧
    tokenize "\"a\\nb\"" = .ok [Token.String "a\\nb"] ∧
    tokenize "\"hello world" = .error (LexerError.new "error: not close string") :=
  ⟨rfl, rfl, rfl, rfl, rfl⟩

/-- C6 counterexample: the claim says any `\u` escape whose next 4
characters are not all hex digits makes tokenize fail, but
`"\uZ123"` — whose next 4 characters include the non-hex `Z` — tokenizes
successfully: the read drops `Z` and decodes the remaining digits `123`
as U+0123. -/
theorem c6_counterexample :
    tokenize "\"\\uZ123\"" = .ok [Token.String "ģ"] := rfl

/-- C6 amended: the `\u` read consumes the next 4 characters but keeps
only the hex digits among them; tokenize fails with the malformed-`\u`
LexError exactly when none of the 4 consumed characters is a hex digit
(the collected digit string is empty); otherwise the kept digits are
decoded (as `"\uZ123"` → U+0123 shows). -/
theorem c6_amended :
    (∀ (n : Nat) (c1 c2 c3 c4 : Char) (rest : List Char) (res : String) (buf : List Nat),
      [c1, c2, c3, c4].filter isAsciiHexDigit = [] →
      scanStringF (n + 1) ('\\' :: 'u' :: c1 :: c2 :: c3 :: c4 :: rest) res buf =
        .error (LexerError.new
          "error: a unicode character is expected cannot parse integer from empty string")) ∧
    tokenize "\"\\uZZZZ\"" = .error (LexerError.new
      "error: a unicode character is expected cannot parse integer from empty string") ∧
    tokenize "\"\\uZ123\"" = .ok [Token.String "ģ"] := by
  refine ⟨?_, rfl, rfl⟩
  intro n c1 c2 c3 c4 rest res buf hfilter
  simp [scanStringF, List.take, hfilter]

/-- Witness for C6's amended theorem: four `Z`s after `\u` contain no hex
digit, and the scan reports the malformed-`\u` error. -/
theorem c6_amended_witness :
    scanStringF 1 ('\\' :: 'u' :: 'Z' :: 'Z' :: 'Z' :: 'Z' :: []) "" [] =
      .error (LexerError.new
        "error: a unicode character is expected cannot parse integer from empty string") :=
  c6_amended.1 0 'Z' 'Z' 'Z' 'Z' [] "" [] rfl

/-- C7: literal matching reads exactly 4 characters for `true`/`null` and
5 for `false`; the exact literals tokenize to exactly one token of the
matching kind, and a non-matching or short run fails with a LexError
naming the expected literal and what was read. -/
theorem c7_literal_matching :
    tokenize "null" = .ok [Token.Null] ∧
    tokenize "true" = .ok [Token.Bool true] ∧
    tokenize "false" = .ok [Token.Bool false] ∧
    tokenize "nulx" = .error (LexerError.new "error: a null value is expected nulx") ∧
    tokenize "nul" = .error (LexerError.new "error: a null value is expected nul") ∧
    tokenize "tru" = .error (LexerError.new "error: a boolean true is expected tru") ∧
    tokenize "fals" = .error (LexerError.new "error: a boolean false is expected fals") :=
  ⟨rfl, rfl, rfl, rfl, rfl, rfl, rfl⟩

/-- C8: `peek_expect` and `next_expect` fail with a ParserError whenever
the cursor is at or past the end of the token sequence, and `parse_object`
fails with a ParserError when an entry is not a String key immediately
followed by a Colon — as on the token sequence of `{"key" "value"}`. -/
theorem c8_parser_errors :
    (∀ (ts : List Token) (i : Nat), ts.length ≤ i →
      peekExpect ts i = .error (ParserError.new "error: a token isn't peekable") ∧
      nextExpect ts i = .error (ParserError.new "error: a token isn't peekable")) ∧
    tokenize "\x7b\"key\" \"value\"\x7d" =
      .ok [Token.LeftBrace, Token.String "key", Token.String "value", Token.LeftBrace] ∧
    parse [Token.LeftBrace, Token.String "key", Token.String "value", Token.LeftBrace] =
      .error (ParserError.new "error: a pair (key(string) and :token) token is expected") := by
  refine ⟨?_, rfl, rfl⟩
  intro ts i hi
  have hg : ts.get? i = none := List.get?_eq_none.mpr hi
  have hg2 : ts[i]? = none := by rw [← List.get?_eq_getElem?]; exact hg
  constructor
  · simp [peekExpect, peek, hg, hg2]
  · simp [nextExpect, next, hg, hg2]

/-- Witness for C8: on the empty token sequence at cursor 0 both cursor
reads fail with the ParserError. -/
theorem c8_witness :
    peekExpect [] 0 = .error (ParserError.new "error: a token isn't peekable") ∧
    nextExpect [] 0 = .error (ParserError.new "error: a token isn't peekable") :=
  c8_parser_errors.1 [] 0 (by decide)

/-- C9: a successful parse consumes exactly the tokens of one JSON value
and leaves trailing tokens unconsumed: a scalar parse from cursor 0 ends
at cursor 1 whatever follows; in particular `[Null, Null]` parses to Null
with the cursor at 1, and `[LeftBracket, RightBracket, Null]` parses to
the empty Array with the cursor at 2, the trailing `Null` untouched. -/
theorem c9_parse_leaves_trailing_tokens :
    (∀ rest : List Token, parse (Token.Null :: rest) = .ok (Value.Null, 1)) ∧
    parse [Token.Null, Token.Null] = .ok (Value.Null, 1) ∧
    parse [Token.LeftBracket, Token.RightBracket, Token.Null] = .ok (Value.Array [], 2) := by
  refine ⟨?_, rfl, rfl⟩
  intro rest
  have h : parseF (2 * (Token.Null :: rest).length + 1 + 1) (Token.Null :: rest) 0 =
      some (.ok (Value.Null, 1)) := by
    simp [parseF]
  simp only [parse]
  rw [show 2 * (Token.Null :: rest).length + 2 =
    2 * (Token.Null :: rest).length + 1 + 1 from rfl]
  rw [h]

/-- C10: tokenize and parse terminate on every finite input: the fueled
tokenize loop never exhausts fuel `length + 1` (every iteration consumes
at least one character, as the shrink conjunct states), and the fueled
parser never exhausts fuel `2·length + 2` (the cursor strictly advances
across every successful sub-parse, as the progress conjunct states). -/
theorem c10_termination :
    (∀ cs : List Char, tokenizeF (cs.length + 1) cs ≠ none) ∧
    (∀ ts : List Token, parseF (2 * ts.length + 2) ts 0 ≠ none) ∧
    (∀ (cs : List Char) (t : Token) (cs' : List Char),
      nextToken cs = .ok (some (t, cs')) → cs'.length < cs.length) ∧
    (∀ (n : Nat) (ts : List Token) (i : Nat) (v : Value) (j : Nat),
      parseF n ts i = some (.ok (v, j)) → i < j) := by
  refine ⟨?_, ?_, nextToken_shrink, ?_⟩
  · intro cs
    exact tokenizeF_sufficient (cs.length + 1) cs (Nat.lt_succ_self _)
  · intro ts
    exact (parseFuel (2 * ts.length + 2)).1 ts 0 (by omega)
  · intro n ts i v j h
    exact (parseProgress n).1 ts i v j h

/-- Witness for C10 at concrete inputs: the colon token consumes one
character, and parsing `[Null]` advances the cursor from 0 to 1. -/
theorem c10_witness :
    (([] : List Char).length < ([':'] : List Char).length) ∧ (0 : Nat) < 1 :=
  ⟨c10_termination.2.2.1 [':'] Token.Colon [] rfl,
   c10_termination.2.2.2 4 [Token.Null] 0 Value.Null 1 rfl⟩

end JsonParse
